import Mathlib

/-!
Shallow embedding of the `examplar-parser` combinator library
(`src/code/examplar-parser/src/lib.rs`) and verification of its
specification.

Modelling conventions:
* A Rust `&str` input is embedded as a `List Char` of its code points.
* Rust's byte slice `&input[1..]` is embedded by `sliceFromByte1`: taking the
  byte suffix at offset 1 succeeds exactly when the first code point occupies
  one UTF-8 byte; on an empty string the index is out of bounds and on a
  multi-byte first code point the index falls inside that code point — both
  are Rust panics, embedded as the `crash` outcome.
* `u8` counters are embedded as `Nat` with an explicit `% 256` at each
  increment (release-mode wrapping semantics).
* The unbounded greedy loop of `Between` (upper limit `Infinity`) is embedded
  with an explicit fuel argument; exhausting the fuel yields the `diverge`
  outcome, representing a run that has not terminated within that many
  iterations.  A Rust parser closure is any function from inputs to outcomes
  (the blanket `impl Parser for F` in the source).
-/

namespace EP

/-- The closed error enumeration `ParseError` from the source. -/
inductive ParseError where
  | GenericError : ParseError
  | ExpectingCharacter : Char → ParseError
  | ExpectingPredicate : ParseError
  | ExpectingOneOfToParse : ParseError
  | EndOfInput : ParseError
deriving DecidableEq, Repr

/-- Outcome of running a parser on an input: `Ok((value, remainder))`,
`Err(e)`, a Rust panic (`crash`), or a run that exceeded the modelling fuel
(`diverge`). -/
inductive PResult (T : Type) where
  | ok : T → List Char → PResult T
  | err : ParseError → PResult T
  | crash : PResult T
  | diverge : PResult T
deriving DecidableEq

/-- A parser of result type `T`: the Rust trait `Parser<'a, T>` together with
its blanket implementation for closures. -/
abbrev ParserFn (T : Type) := List Char → PResult T

variable {T I O : Type}

/-- Rust `input.starts_with(c)` for a `char` pattern: the first code point
equals `c`. -/
def startsWithChar (input : List Char) (c : Char) : Bool :=
  match input with
  | [] => false
  | d :: _ => d == c

/-- Rust `&input[1..]`: drop the first byte of the UTF-8 encoding.  `none`
models the panic: out of bounds on the empty string, and a byte index inside
the first code point when that code point is multi-byte. -/
def sliceFromByte1 (input : List Char) : Option (List Char) :=
  match input with
  | [] => none
  | c :: rest => if c.utf8Size = 1 then some rest else none

/-- The `Character` primitive: the struct holds the code point fixed at
construction. -/
structure Character where
  character_to_match : Char

/-- `Character::parse`: if the input starts with the target, return it and
`&input[1..]`; otherwise fail with `ExpectingCharacter`. -/
def Character.parse (self : Character) (input : List Char) : PResult Char :=
  if startsWithChar input self.character_to_match then
    match sliceFromByte1 input with
    | some rest => .ok self.character_to_match rest
    | none => .crash
  else
    .err (.ExpectingCharacter self.character_to_match)

/-- The free constructor `character`. -/
def character (character_to_match : Char) : Character :=
  ⟨character_to_match⟩

/-- The `Any` primitive: holds a predicate over a single code point. -/
structure Any where
  predicate : Char → Bool

/-- `Any::parse`: inspect the first code point; if present and the predicate
holds, return it and `&input[1..]`; if present and the predicate fails,
`ExpectingPredicate`; if the input is empty, `EndOfInput`. -/
def Any.parse (self : Any) (input : List Char) : PResult Char :=
  match input with
  | [] => .err .EndOfInput
  | c :: _ =>
    if self.predicate c then
      match sliceFromByte1 input with
      | some rest => .ok c rest
      | none => .crash
    else
      .err .ExpectingPredicate

/-- The free constructor `any`. -/
def any (predicate : Char → Bool) : Any :=
  ⟨predicate⟩

/-- The `Map` combinator: an inner parser and a pure function. -/
structure Map (I O : Type) where
  parser : ParserFn I
  map : I → O

/-- `Map::parse`: run the inner parser and `Result::map` the pure function
over the success value, keeping the remainder; errors (and panics or
divergence of the inner parser) propagate unchanged. -/
def Map.parse (self : Map I O) (input : List Char) : PResult O :=
  match self.parser input with
  | .ok value rest => .ok (self.map value) rest
  | .err e => .err e
  | .crash => .crash
  | .diverge => .diverge

/-- The free constructor `map`. -/
def map (parser : ParserFn I) (f : I → O) : Map I O :=
  ⟨parser, f⟩

/-- The `Limit` enumeration: a finite threshold `At(n)` (`n : u8`, embedded
as `Nat`) or `Infinity`. -/
inductive Limit where
  | At : Nat → Limit
  | Infinity : Limit
deriving DecidableEq

/-- `Limit::is_bigger_then`: `At(threshold)` compares `threshold > n`;
`Infinity` is bigger than everything. -/
def Limit.is_bigger_then (self : Limit) (n : Nat) : Bool :=
  match self with
  | .At threshold => n < threshold
  | .Infinity => true

/-- The `Between` combinator: inclusive lower limit (`u8` in the source),
upper `Limit`, and the inner parser. -/
structure Between (T : Type) where
  lower_limit : Nat
  upper_limit : Limit
  parser : ParserFn T

/-- The first (mandatory) loop of `Between::parse`: `while count <
lower_limit` run the inner parser, pushing each value and advancing the
source; the first inner error aborts the whole parse with that error.  The
`u8` counter is embedded by its remaining distance `n = lower_limit - count`
(no wrap can occur here since `lower_limit ≤ 255`). -/
def mandatoryLoop (p : ParserFn T) : Nat → List T → List Char → PResult (List T)
  | 0, acc, source => .ok acc source
  | n + 1, acc, source =>
    match p source with
    | .ok value rest => mandatoryLoop p n (acc ++ [value]) rest
    | .err e => .err e
    | .crash => .crash
    | .diverge => .diverge

/-- The second (greedy optional) loop of `Between::parse`: `while
upper_limit.is_bigger_then(count)` run the inner parser; a success pushes the
value, advances the source and increments the `u8` counter (wrapping, hence
`% 256`); a failure breaks the loop and the accumulated results are returned
with the current source.  `fuel` bounds the number of iterations modelled;
running out of fuel yields `diverge`. -/
def optionalLoop (p : ParserFn T) (lim : Limit) :
    Nat → Nat → List T → List Char → PResult (List T)
  | fuel, count, acc, source =>
    if lim.is_bigger_then count then
      match fuel with
      | 0 => .diverge
      | fuel' + 1 =>
        match p source with
        | .ok value rest =>
            optionalLoop p lim fuel' ((count + 1) % 256) (acc ++ [value]) rest
        | .err _ => .ok acc source
        | .crash => .crash
        | .diverge => .diverge
    else
      .ok acc source

/-- `Between::parse`: the mandatory loop (starting from `count = 0`,
`result = vec![]`) followed, on success, by the greedy optional loop starting
at `count = lower_limit`. -/
def Between.parse (self : Between T) (fuel : Nat) (input : List Char) :
    PResult (List T) :=
  match mandatoryLoop self.parser self.lower_limit [] input with
  | .ok result source =>
      optionalLoop self.parser self.upper_limit fuel self.lower_limit result source
  | .err e => .err e
  | .crash => .crash
  | .diverge => .diverge

/-- The free constructor `between`: finite upper limit `At(hi)`. -/
def between (lower_limit upper_limit : Nat) (parser : ParserFn T) : Between T :=
  ⟨lower_limit, .At upper_limit, parser⟩

/-- The free constructor `at_least`: upper limit `Infinity`. -/
def at_least (lower_limit : Nat) (parser : ParserFn T) : Between T :=
  ⟨lower_limit, .Infinity, parser⟩

/-- The free constructor `many`: `at_least(0, parser)`. -/
def many (parser : ParserFn T) : Between T :=
  at_least 0 parser

/-- The candidate-scanning loop of `OneOf::parse`: return the first `Ok`
attempt verbatim, skipping failed attempts; if no candidate succeeds, fail
with `ExpectingOneOfToParse`. -/
def oneOfLoop : List (ParserFn T) → List Char → PResult T
  | [], _ => .err .ExpectingOneOfToParse
  | p :: ps, input =>
    match p input with
    | .ok value rest => .ok value rest
    | .err _ => oneOfLoop ps input
    | .crash => .crash
    | .diverge => .diverge

/-- The `OneOf` combinator: an ordered sequence of parsers of one result
type. -/
structure OneOf (T : Type) where
  options : List (ParserFn T)

/-- `OneOf::parse`: scan the options in order. -/
def OneOf.parse (self : OneOf T) (input : List Char) : PResult T :=
  oneOfLoop self.options input

/-- The free constructor `one_of`. -/
def one_of (options : List (ParserFn T)) : OneOf T :=
  ⟨options⟩

/-- The list of values `[v start, v (start+1), ..., v (start+n-1)]`, used to
state what a run of `n` consecutive successful inner parses accumulates. -/
def vals (v : Nat → T) : Nat → Nat → List T
  | _, 0 => []
  | start, n + 1 => v start :: vals v (start + 1) n

/-! Helper lemmas. -/

lemma vals_length (v : Nat → T) : ∀ n start, (vals v start n).length = n := by
  intro n
  induction n with
  | zero => intro start; rfl
  | succ m ih => intro start; simp [vals, ih]

lemma vals_append (v : Nat → T) (n : Nat) :
    ∀ m start, vals v start (m + n) = vals v start m ++ vals v (start + m) n := by
  intro m
  induction m with
  | zero => intro start; simp [vals]
  | succ m' ih =>
    intro start
    have h1 : m' + 1 + n = (m' + n) + 1 := by omega
    rw [h1]
    show v start :: vals v (start + 1) (m' + n) = _
    rw [ih (start + 1)]
    have h2 : start + 1 + m' = start + (m' + 1) := by omega
    rw [h2]
    rfl

lemma mandatoryLoop_succ (p : ParserFn T) (n : Nat) (acc : List T)
    (source : List Char) :
    mandatoryLoop p (n + 1) acc source
      = match p source with
        | .ok value rest => mandatoryLoop p n (acc ++ [value]) rest
        | .err e => .err e
        | .crash => .crash
        | .diverge => .diverge := rfl

lemma mandatoryLoop_succ_ok (p : ParserFn T) (n : Nat) (acc : List T)
    (source rest : List Char) (value : T) (hp : p source = .ok value rest) :
    mandatoryLoop p (n + 1) acc source = mandatoryLoop p n (acc ++ [value]) rest := by
  rw [mandatoryLoop_succ, hp]

lemma mandatoryLoop_succ_err (p : ParserFn T) (n : Nat) (acc : List T)
    (source : List Char) (e : ParseError) (hp : p source = .err e) :
    mandatoryLoop p (n + 1) acc source = .err e := by
  rw [mandatoryLoop_succ, hp]

lemma optionalLoop_zero (p : ParserFn T) (lim : Limit) (count : Nat)
    (acc : List T) (source : List Char) :
    optionalLoop p lim 0 count acc source
      = if lim.is_bigger_then count then .diverge else .ok acc source := rfl

lemma optionalLoop_succ (p : ParserFn T) (lim : Limit) (fuel count : Nat)
    (acc : List T) (source : List Char) :
    optionalLoop p lim (fuel + 1) count acc source
      = if lim.is_bigger_then count then
          match p source with
          | .ok value rest =>
              optionalLoop p lim fuel ((count + 1) % 256) (acc ++ [value]) rest
          | .err _ => .ok acc source
          | .crash => .crash
          | .diverge => .diverge
        else .ok acc source := rfl

lemma optionalLoop_succ_ok (p : ParserFn T) (lim : Limit) (fuel count : Nat)
    (acc : List T) (source rest : List Char) (value : T)
    (hbig : lim.is_bigger_then count = true) (hp : p source = .ok value rest) :
    optionalLoop p lim (fuel + 1) count acc source
      = optionalLoop p lim fuel ((count + 1) % 256) (acc ++ [value]) rest := by
  rw [optionalLoop_succ, if_pos hbig, hp]

lemma optionalLoop_succ_err (p : ParserFn T) (lim : Limit) (fuel count : Nat)
    (acc : List T) (source : List Char) (e : ParseError)
    (hbig : lim.is_bigger_then count = true) (hp : p source = .err e) :
    optionalLoop p lim (fuel + 1) count acc source = .ok acc source := by
  rw [optionalLoop_succ, if_pos hbig, hp]

lemma optionalLoop_stop (p : ParserFn T) (lim : Limit) (fuel count : Nat)
    (acc : List T) (source : List Char) (h : lim.is_bigger_then count = false) :
    optionalLoop p lim fuel count acc source = .ok acc source := by
  cases fuel with
  | zero => rw [optionalLoop_zero, if_neg (by simp [h])]
  | succ f => rw [optionalLoop_succ, if_neg (by simp [h])]

lemma between_parse_eq (lo hi : Nat) (p : ParserFn T) (fuel : Nat)
    (input : List Char) :
    (between lo hi p).parse fuel input
      = match mandatoryLoop p lo [] input with
        | .ok result source => optionalLoop p (.At hi) fuel lo result source
        | .err e => .err e
        | .crash => .crash
        | .diverge => .diverge := rfl

lemma oneOfLoop_all_err (s : List Char) :
    ∀ opts : List (ParserFn T), (∀ p ∈ opts, ∃ e, p s = .err e) →
      oneOfLoop opts s = .err .ExpectingOneOfToParse := by
  intro opts
  induction opts with
  | nil => intro _; rfl
  | cons p ps ih =>
    intro hall
    obtain ⟨e, he⟩ := hall p (by simp)
    have h2 := ih (fun q hq => hall q (by simp [hq]))
    simp [oneOfLoop, he, h2]

lemma optionalLoop_ne_err (p : ParserFn T) (lim : Limit) :
    ∀ fuel count acc source e,
      optionalLoop p lim fuel count acc source ≠ .err e := by
  intro fuel
  induction fuel with
  | zero =>
    intro count acc source e
    rw [optionalLoop_zero]
    by_cases h : lim.is_bigger_then count <;> simp [h]
  | succ f ih =>
    intro count acc source e
    rw [optionalLoop_succ]
    by_cases h : lim.is_bigger_then count
    · simp only [if_pos h]
      cases hp : p source with
      | ok value rest => exact ih _ _ _ _
      | err e' => simp
      | crash => simp
      | diverge => simp
    · simp [h]

/-! Claims about the primitives. -/

/-- Claim C2, counterexample: for the two-byte code point `é` the input
`"éx"` does start with `é`, but `character('é').parse` panics on the byte
slice `&input[1..]` instead of succeeding with `('é', "x")`. -/
theorem character_success_counterexample :
    startsWithChar ['é', 'x'] 'é' = true
    ∧ (character 'é').parse ['é', 'x'] = .crash
    ∧ (character 'é').parse ['é', 'x'] ≠ .ok 'é' ['x'] := by decide

/-- Claim C2 (amended): for every code point `c` whose UTF-8 encoding is a
single byte and every input `s` that starts with `c`, `character(c).parse s`
succeeds returning `c` and `s` with its first code point removed. -/
theorem character_success (c : Char) (s : List Char)
    (hstart : startsWithChar s c = true) (hsize : c.utf8Size = 1) :
    (character c).parse s = .ok c s.tail := by
  cases s with
  | nil => simp [startsWithChar] at hstart
  | cons d rest =>
    have hd : d = c := by simpa [startsWithChar] using hstart
    subst hd
    simp [character, Character.parse, startsWithChar, sliceFromByte1, hsize]

/-- Witness for `character_success` at `c = 'a'`, `s = "abc"`. -/
theorem character_success_witness :
    (character 'a').parse ['a', 'b', 'c'] = .ok 'a' ['b', 'c'] :=
  character_success 'a' ['a', 'b', 'c'] (by decide) (by decide)

/-- Claim C7: for every code point `c` and input `s` not starting with `c`
(the empty input included), `character(c).parse s` fails with
`ExpectingCharacter(c)`; no distinct end-of-input error is raised. -/
theorem character_mismatch (c : Char) (s : List Char)
    (h : startsWithChar s c = false) :
    (character c).parse s = .err (.ExpectingCharacter c) := by
  simp [character, Character.parse, h]

/-- Witness for `character_mismatch` at the empty input. -/
theorem character_mismatch_witness :
    (character 'a').parse [] = .err (.ExpectingCharacter 'a') :=
  character_mismatch 'a' [] (by decide)

/-- Claim C3, counterexample: on the input `"é"` whose first (two-byte) code
point satisfies the always-true predicate, `any(p).parse` panics on
`&input[1..]` instead of succeeding with `('é', "")`. -/
theorem any_success_counterexample :
    (fun _ => true) 'é' = true
    ∧ (any (fun _ => true)).parse ['é'] = .crash
    ∧ (any (fun _ => true)).parse ['é'] ≠ .ok 'é' [] := by decide

/-- Claim C3 (amended): for every predicate, if the input is non-empty and
its first code point satisfies the predicate and occupies a single UTF-8
byte, `any(p).parse` succeeds returning that code point and the input with
its first code point removed; if the input is non-empty and its first code
point fails the predicate, it fails with `ExpectingPredicate`; on the empty
input it fails with `EndOfInput`. -/
theorem any_cases (pred : Char → Bool) (c : Char) (rest : List Char) :
    (pred c = true → c.utf8Size = 1 → (any pred).parse (c :: rest) = .ok c rest)
    ∧ (pred c = false → (any pred).parse (c :: rest) = .err .ExpectingPredicate)
    ∧ (any pred).parse [] = .err .EndOfInput := by
  refine ⟨?_, ?_, rfl⟩
  · intro hp hsize
    simp [any, Any.parse, sliceFromByte1, hp, hsize]
  · intro hp
    simp [any, Any.parse, hp]

/-- Witness for `any_cases`: the success branch at an ASCII digit. -/
theorem any_cases_witness :
    (any (fun c => c.isDigit)).parse ['0', '1'] = .ok '0' ['1'] :=
  (any_cases (fun c => c.isDigit) '0' ['1']).1 (by decide) (by decide)

/-- Claim C8: both primitives compute the remainder by slicing the input at
byte offset 1, so their success branch returns the input minus one code
point exactly when the matched first code point is a single UTF-8 byte, and
panics (the slice index falls inside the code point) when it is
multi-byte. -/
theorem byte_slice_one (c : Char) (pred : Char → Bool) (rest : List Char)
    (hp : pred c = true) :
    ((character c).parse (c :: rest)
        = if c.utf8Size = 1 then .ok c rest else .crash)
    ∧ ((any pred).parse (c :: rest)
        = if c.utf8Size = 1 then .ok c rest else .crash) := by
  constructor
  · by_cases h : c.utf8Size = 1 <;>
      simp [character, Character.parse, startsWithChar, sliceFromByte1, h]
  · by_cases h : c.utf8Size = 1 <;>
      simp [any, Any.parse, sliceFromByte1, hp, h]

/-- Witness for `byte_slice_one` at the two-byte code point `é`: both
primitives panic. -/
theorem byte_slice_one_witness :
    (character 'é').parse ['é'] = .crash
    ∧ (any (fun _ => true)).parse ['é'] = .crash := by
  have h := byte_slice_one 'é' (fun _ => true) [] (by decide)
  exact ⟨h.1.trans (by decide), h.2.trans (by decide)⟩

/-! Claims about the combinators. -/

/-- Claim C4: `map(parser, f).parse` succeeds iff the inner parser succeeds;
on success it applies `f` to the value and keeps the remainder unchanged; on
failure it propagates the inner error unmodified. -/
theorem map_propagates (p : ParserFn I) (f : I → O) (s : List Char) :
    ((∃ value rest, (map p f).parse s = .ok value rest)
        ↔ (∃ value rest, p s = .ok value rest))
    ∧ (∀ value rest, p s = .ok value rest →
        (map p f).parse s = .ok (f value) rest)
    ∧ (∀ e, p s = .err e → (map p f).parse s = .err e) := by
  refine ⟨?_, ?_, ?_⟩
  · cases h : p s <;> simp [map, Map.parse, h]
  · intro value rest h
    simp [map, Map.parse, h]
  · intro e h
    simp [map, Map.parse, h]

/-- Witness for `map_propagates`: mapping a digit to its code-point value. -/
theorem map_propagates_witness :
    (map (any (fun c => c.isDigit)).parse (fun c => c.toNat)).parse ['1', '2']
      = .ok 49 ['2'] :=
  (map_propagates (any (fun c => c.isDigit)).parse (fun c => c.toNat)
    ['1', '2']).2.1 '1' ['2'] (by decide)

/-- Claim C5: `one_of` tries the candidates in listed order against the same
original input, returns the first success verbatim, and when the candidate
sequence is empty or every candidate fails it fails with
`ExpectingOneOfToParse`, discarding the per-candidate errors. -/
theorem one_of_first_success (opts : List (ParserFn T)) (s : List Char) :
    ((one_of ([] : List (ParserFn T))).parse s = .err .ExpectingOneOfToParse)
    ∧ (∀ (p : ParserFn T) (ps : List (ParserFn T)) (value : T) (rest : List Char),
        p s = .ok value rest → (one_of (p :: ps)).parse s = .ok value rest)
    ∧ (∀ (p : ParserFn T) (ps : List (ParserFn T)) (e : ParseError),
        p s = .err e → (one_of (p :: ps)).parse s = (one_of ps).parse s)
    ∧ ((∀ p ∈ opts, ∃ e, p s = .err e) →
        (one_of opts).parse s = .err .ExpectingOneOfToParse) := by
  refine ⟨rfl, ?_, ?_, oneOfLoop_all_err s opts⟩
  · intro p ps value rest h
    simp [one_of, OneOf.parse, oneOfLoop, h]
  · intro p ps e h
    simp [one_of, OneOf.parse, oneOfLoop, h]

/-- Witness for `one_of_first_success`: the source's own test scenario. -/
theorem one_of_first_success_witness :
    (one_of [(character 'a').parse, (character 'b').parse]).parse ['a', '1']
      = .ok 'a' ['1'] :=
  (one_of_first_success [(character 'a').parse, (character 'b').parse]
    ['a', '1']).2.1 (character 'a').parse [(character 'b').parse] 'a' ['1']
    (by decide)

/-- Claim C6: `many(p)` never returns an error (for any modelling fuel), and
when the inner parser fails immediately it succeeds with the empty sequence
and the original input unchanged as the remainder. -/
theorem many_never_fails (p : ParserFn T) (fuel : Nat) (input : List Char)
    (e0 : ParseError) :
    (∀ e, (many p).parse fuel input ≠ .err e)
    ∧ (p input = .err e0 → (many p).parse (fuel + 1) input = .ok [] input) := by
  constructor
  · intro e
    show optionalLoop p .Infinity fuel 0 [] input ≠ .err e
    exact optionalLoop_ne_err p .Infinity fuel 0 [] input e
  · intro h
    show optionalLoop p .Infinity (fuel + 1) 0 [] input = .ok [] input
    exact optionalLoop_succ_err p .Infinity fuel 0 [] input e0 rfl h

/-- Witness for `many_never_fails`: `many(character('a'))` on `"b"`. -/
theorem many_never_fails_witness :
    (many (character 'a').parse).parse 1 ['b'] = .ok [] ['b'] :=
  (many_never_fails (character 'a').parse 0 ['b']
    (.ExpectingCharacter 'a')).2 (by decide)

/-! Claims about Between. -/

lemma mandatoryLoop_ok (p : ParserFn T) (v : Nat → T) (s : Nat → List Char) :
    ∀ n start acc,
      (∀ i, start ≤ i → i < start + n → p (s i) = .ok (v i) (s (i + 1))) →
      mandatoryLoop p n acc (s start) = .ok (acc ++ vals v start n) (s (start + n)) := by
  intro n
  induction n with
  | zero =>
    intro start acc _
    simp [mandatoryLoop, vals]
  | succ m ih =>
    intro start acc h
    have h0 : p (s start) = .ok (v start) (s (start + 1)) :=
      h start le_rfl (by omega)
    rw [mandatoryLoop_succ_ok p m acc (s start) (s (start + 1)) (v start) h0]
    rw [ih (start + 1) (acc ++ [v start]) (fun i h1 h2 => h i (by omega) (by omega))]
    have e1 : start + 1 + m = start + (m + 1) := by omega
    rw [e1]
    simp [vals, List.append_assoc]

lemma mandatoryLoop_err (p : ParserFn T) (v : Nat → T) (s : Nat → List Char)
    (e : ParseError) :
    ∀ k n start acc, k < n →
      (∀ i, start ≤ i → i < start + k → p (s i) = .ok (v i) (s (i + 1))) →
      p (s (start + k)) = .err e →
      mandatoryLoop p n acc (s start) = .err e := by
  intro k
  induction k with
  | zero =>
    intro n start acc hk h hf
    obtain ⟨m, rfl⟩ : ∃ m, n = m + 1 := ⟨n - 1, by omega⟩
    have hf0 : p (s start) = .err e := by simpa using hf
    exact mandatoryLoop_succ_err p m acc (s start) e hf0
  | succ j ih =>
    intro n start acc hk h hf
    obtain ⟨m, rfl⟩ : ∃ m, n = m + 1 := ⟨n - 1, by omega⟩
    have h0 : p (s start) = .ok (v start) (s (start + 1)) :=
      h start le_rfl (by omega)
    rw [mandatoryLoop_succ_ok p m acc (s start) (s (start + 1)) (v start) h0]
    apply ih m (start + 1) (acc ++ [v start]) (by omega)
    · intro i h1 h2
      exact h i (by omega) (by omega)
    · have e1 : start + 1 + j = start + (j + 1) := by omega
      rw [e1]
      exact hf

lemma mandatoryLoop_ok_length (p : ParserFn T) :
    ∀ n acc source res rest,
      mandatoryLoop p n acc source = .ok res rest →
      res.length = acc.length + n := by
  intro n
  induction n with
  | zero =>
    intro acc source res rest h
    simp only [mandatoryLoop] at h
    obtain ⟨h1, -⟩ := PResult.ok.inj h
    subst h1
    simp
  | succ m ih =>
    intro acc source res rest h
    rw [mandatoryLoop_succ] at h
    cases hp : p source with
    | ok value r =>
      rw [hp] at h
      have := ih (acc ++ [value]) r res rest h
      simp at this
      omega
    | err e => rw [hp] at h; cases h
    | crash => rw [hp] at h; cases h
    | diverge => rw [hp] at h; cases h

/-- The greedy optional phase on a trace with `k - start` further matches
available, a finite limit `At hi`, and a running count `count`: it collects
`min (k - start) (hi - count)` more results. -/
lemma optionalLoop_run (p : ParserFn T) (v : Nat → T) (s : Nat → List Char)
    (e : ParseError) (hi k : Nat) (hhi : hi ≤ 255)
    (hok : ∀ i, i < k → p (s i) = .ok (v i) (s (i + 1)))
    (hf : p (s k) = .err e) :
    ∀ fuel count start acc, count ≤ hi → start ≤ k →
      min (k - start) (hi - count) + 1 ≤ fuel →
      optionalLoop p (.At hi) fuel count acc (s start)
        = .ok (acc ++ vals v start (min (k - start) (hi - count)))
            (s (start + min (k - start) (hi - count))) := by
  intro fuel
  induction fuel with
  | zero =>
    intro count start acc h1 h2 h3
    omega
  | succ f ih =>
    intro count start acc hcount hstart hfuel
    by_cases hc : count < hi
    · have hbig : (Limit.At hi).is_bigger_then count = true := by
        simp [Limit.is_bigger_then]
        omega
      by_cases hs : start < k
      · have h0 : p (s start) = .ok (v start) (s (start + 1)) := hok start hs
        rw [optionalLoop_succ_ok p (.At hi) f count acc (s start) (s (start + 1))
          (v start) hbig h0]
        have hmod : (count + 1) % 256 = count + 1 := Nat.mod_eq_of_lt (by omega)
        rw [hmod]
        rw [ih (count + 1) (start + 1) (acc ++ [v start]) (by omega) (by omega)
          (by omega)]
        obtain ⟨d, hd⟩ : ∃ d, min (k - start) (hi - count) = d + 1 :=
          ⟨min (k - start) (hi - count) - 1, by omega⟩
        have hd' : min (k - (start + 1)) (hi - (count + 1)) = d := by omega
        rw [hd', hd]
        have e1 : start + 1 + d = start + (d + 1) := by omega
        rw [e1]
        simp [vals, List.append_assoc]
      · have hk : start = k := by omega
        have hf0 : p (s start) = .err e := by rw [hk]; exact hf
        rw [optionalLoop_succ_err p (.At hi) f count acc (s start) e hbig hf0]
        have h0 : min (k - start) (hi - count) = 0 := by omega
        rw [h0]
        simp [vals]
    · have hstop : (Limit.At hi).is_bigger_then count = false := by
        simp [Limit.is_bigger_then]
        omega
      rw [optionalLoop_stop p (.At hi) (f + 1) count acc (s start) hstop]
      have h0 : min (k - start) (hi - count) = 0 := by omega
      rw [h0]
      simp [vals]

/-- Claim C1, counterexample: with `lo = 2 > hi = 1` and an input holding
exactly `k = 2` matches of `character('a')` followed by a non-match,
`between(2, 1, p)` succeeds with 2 results, not `min(k, hi) = 1`. -/
theorem between_min_results_counterexample :
    (between 2 1 (character 'a').parse).parse 2 ['a', 'a', 'b']
      = .ok ['a', 'a'] ['b']
    ∧ (['a', 'a'] : List Char).length ≠ min 2 1 := by decide

/-- Claim C1 (amended with `lo ≤ hi`): for every `lo ≤ hi` (with `hi` in the
`u8` range) and inner parser `p`, on an input trace holding exactly `k`
consecutive matches of `p` followed by a non-match with error `e`: if
`k ≥ lo` then `between(lo, hi, p).parse` succeeds with `min k hi` results
and the remainder left after the last consumed repetition, and if `k < lo`
it fails propagating `e`, the error of the first failing attempt; moreover
`Limit::At(n).is_bigger_then(count)` holds iff `n > count`. -/
theorem between_bounded_repetition (p : ParserFn T) (v : Nat → T)
    (s : Nat → List Char) (lo hi k fuel : Nat) (e : ParseError)
    (hle : lo ≤ hi) (hhi : hi ≤ 255) (hfuel : hi + 1 ≤ fuel)
    (hok : ∀ i, i < k → p (s i) = .ok (v i) (s (i + 1)))
    (hf : p (s k) = .err e) :
    ((lo ≤ k →
        (between lo hi p).parse fuel (s 0) = .ok (vals v 0 (min k hi)) (s (min k hi))
        ∧ (vals v 0 (min k hi)).length = min k hi)
      ∧ (k < lo → (between lo hi p).parse fuel (s 0) = .err e))
    ∧ (∀ n count : Nat, (Limit.At n).is_bigger_then count = true ↔ n > count) := by
  refine ⟨⟨?_, ?_⟩, ?_⟩
  · intro hlok
    have hmand := mandatoryLoop_ok p v s lo 0 []
      (fun i h1 h2 => hok i (by omega))
    simp only [List.nil_append, Nat.zero_add] at hmand
    have hstep : (between lo hi p).parse fuel (s 0)
        = optionalLoop p (.At hi) fuel lo (vals v 0 lo) (s lo) := by
      rw [between_parse_eq, hmand]
    rw [hstep]
    rw [optionalLoop_run p v s e hi k hhi hok hf fuel lo lo (vals v 0 lo)
      hle hlok (by omega)]
    have hmin : min (k - lo) (hi - lo) = min k hi - lo := by omega
    rw [hmin]
    have hsum : lo + (min k hi - lo) = min k hi := by omega
    constructor
    · have hva := vals_append v (min k hi - lo) lo 0
      simp only [Nat.zero_add] at hva
      rw [← hva, hsum]
    · rw [vals_length]
  · intro hklo
    have hmand := mandatoryLoop_err p v s e k lo 0 [] hklo
      (fun i h1 h2 => hok i (by omega)) (by simpa using hf)
    rw [between_parse_eq, hmand]
  · intro n count
    simp [Limit.is_bigger_then]

/-- Witness for `between_bounded_repetition`: `between(1, 3, character('a'))`
on `"aab"` (so `k = 2`, `min k hi = 2`). -/
theorem between_bounded_repetition_witness :
    (between 1 3 (character 'a').parse).parse 4 ['a', 'a', 'b']
      = .ok ['a', 'a'] ['b'] :=
  ((between_bounded_repetition (character 'a').parse (fun _ => 'a')
      (fun i => List.drop i ['a', 'a', 'b']) 1 3 2 4 (.ExpectingCharacter 'a')
      (by decide) (by decide) (by decide) (by decide) (by decide)).1.1
    (by decide)).1

/-- Claim C9: with `lo > hi`, `between(lo, hi, p)` still runs its whole
mandatory phase — its parse equals the mandatory loop alone — so whenever it
succeeds it returns exactly `lo` results, exceeding the stated upper bound;
the upper limit never truncates the mandatory phase. -/
theorem between_lower_above_upper (lo hi : Nat) (p : ParserFn T) (fuel : Nat)
    (input : List Char) (hlt : hi < lo) :
    ((between lo hi p).parse fuel input = mandatoryLoop p lo [] input)
    ∧ (∀ res rest, (between lo hi p).parse fuel input = .ok res rest →
        res.length = lo) := by
  have hmain : (between lo hi p).parse fuel input = mandatoryLoop p lo [] input := by
    rw [between_parse_eq]
    cases h : mandatoryLoop p lo [] input with
    | ok res src =>
      exact optionalLoop_stop p (.At hi) fuel lo res src
        (by simp [Limit.is_bigger_then]; omega)
    | err e => rfl
    | crash => rfl
    | diverge => rfl
  refine ⟨hmain, ?_⟩
  intro res rest h2
  rw [hmain] at h2
  have := mandatoryLoop_ok_length p lo [] input res rest h2
  simpa using this

/-- Witness for `between_lower_above_upper`: `between(2, 1, character('a'))`
on `"aa"` succeeds with 2 results. -/
theorem between_lower_above_upper_witness :
    (between 2 1 (character 'a').parse).parse 3 ['a', 'a']
      = mandatoryLoop (character 'a').parse 2 [] ['a', 'a']
    ∧ (['a', 'a'] : List Char).length = 2 := by
  have h := between_lower_above_upper 2 1 (character 'a').parse 3 ['a', 'a']
    (by decide)
  exact ⟨h.1, h.2 ['a', 'a'] [] (by decide)⟩

/-- The result of the unbounded (`Infinity`) optional loop does not depend
on the running count. -/
lemma optionalLoop_inf_count (p : ParserFn T) :
    ∀ fuel count count' acc source,
      optionalLoop p .Infinity fuel count acc source
        = optionalLoop p .Infinity fuel count' acc source := by
  intro fuel
  induction fuel with
  | zero =>
    intro count count' acc source
    rw [optionalLoop_zero, optionalLoop_zero]
    rfl
  | succ f ih =>
    intro count count' acc source
    rw [optionalLoop_succ, optionalLoop_succ]
    simp only [Limit.is_bigger_then, if_true]
    cases hp : p source with
    | ok value rest => exact ih _ _ _ _
    | err e => rfl
    | crash => rfl
    | diverge => rfl

/-- Claim C10: in the greedy loop the `u8` counter is incremented (wrapping
modulo `2^8`) once per successful inner parse; `Limit::Infinity`'s bound
check ignores the counter, so under wraparound semantics the returned
results and remainder are unaffected by the counter's value. -/
theorem infinity_counter_wrap (p : ParserFn T) (fuel count : Nat)
    (acc : List T) (source : List Char) :
    (Limit.Infinity.is_bigger_then count = true)
    ∧ (∀ (value : T) (rest : List Char), p source = .ok value rest →
        optionalLoop p .Infinity (fuel + 1) count acc source
          = optionalLoop p .Infinity fuel ((count + 1) % 256) (acc ++ [value]) rest)
    ∧ (∀ count', optionalLoop p .Infinity fuel count acc source
          = optionalLoop p .Infinity fuel count' acc source) := by
  refine ⟨rfl, ?_, fun count' => optionalLoop_inf_count p fuel count count' acc source⟩
  intro value rest h
  exact optionalLoop_succ_ok p .Infinity fuel count acc source rest value rfl h

/-- Witness for `infinity_counter_wrap`: one successful step at count 255
wraps the counter to `(255 + 1) % 256 = 0`. -/
theorem infinity_counter_wrap_witness :
    optionalLoop (character 'a').parse .Infinity 2 255 [] ['a', 'b']
      = optionalLoop (character 'a').parse .Infinity 1 0 ['a'] ['b'] :=
  (infinity_counter_wrap (character 'a').parse 1 255 [] ['a', 'b']).2.1
    'a' ['b'] (by decide)

end EP
